import Mathlib

/-!
Verification development for the KnowLedgeLib frontend streaming core:
the SSE stream decoder (`src/frontend/src/api/sse.ts`, `streamChat`) and
the transcript reconciler (`src/frontend/src/pages/ChatPage.vue`).

Strings are embedded as `List Char`; raw network bytes as `List Nat`.
JavaScript values that can flow through `content` fields are embedded by
the `Content` type below.
-/

namespace KnowLedgeLib

/-! ## JavaScript string primitives used by the decoder -/

/-- The JavaScript whitespace set matched by `\s` in a regex and removed by
`String.prototype.trimEnd` (WhiteSpace plus LineTerminator code points). -/
def isJsWs (c : Char) : Bool :=
  let n := c.toNat
  n = 0x20 || n = 0x09 || n = 0x0A || n = 0x0B || n = 0x0C || n = 0x0D ||
  n = 0xA0 || n = 0x1680 || (0x2000 ≤ n && n ≤ 0x200A) ||
  n = 0x2028 || n = 0x2029 || n = 0x202F || n = 0x205F || n = 0x3000 || n = 0xFEFF

/-- `s.trimEnd()`: drop trailing JavaScript whitespace. -/
def trimEnd (l : List Char) : List Char :=
  (l.reverse.dropWhile isJsWs).reverse

/-- `a.startsWith(b)` for the embedded strings (is the first list a prefix
of the second). -/
def isPrefixL : List Char → List Char → Bool
  | [], _ => true
  | _ :: _, [] => false
  | a :: as, b :: bs => a = b && isPrefixL as bs

/-- The literal `"data:"` field prefix. -/
def dataLit : List Char := "data:".data

/-- The stream-termination sentinel literal `"[DONE]"`. -/
def doneLit : List Char := "[DONE]".data

/-- The fixed diagnostic message emitted on a payload parse failure. -/
def badLit : List Char := "Bad SSE payload".data

/-! ## Splitting the buffer

`buffer.split("\n\n")` followed by `chunks.pop()` separates the buffer into
the complete event blocks (everything before the last delimiter) and the
trailing incomplete fragment.  `splitBlocks` computes both at once:
leftmost, non-overlapping occurrences of the two-newline delimiter, exactly
as `String.prototype.split`. -/

def splitBlocks : List Char → List (List Char) × List Char
  | [] => ([], [])
  | [c] => ([], [c])
  | c :: d :: rest =>
    if c = '\n' ∧ d = '\n' then
      let p := splitBlocks rest
      ([] :: p.1, p.2)
    else
      let p := splitBlocks (d :: rest)
      match p.1 with
      | [] => ([], c :: p.2)
      | b :: bs => ((c :: b) :: bs, p.2)

/-- `chunk.split("\n")`: split one block into its lines. -/
def splitNl : List Char → List (List Char)
  | [] => [[]]
  | c :: rest =>
    if c = '\n' then [] :: splitNl rest
    else
      match splitNl rest with
      | [] => [[c]]
      | l :: ls => (c :: l) :: ls

/-- `line.replace(/^data:\s*/, "")`: if the line starts with `data:`, drop
the prefix and the maximal run of following whitespace (`\s*` is greedy);
otherwise the line is unchanged. -/
def stripData (l : List Char) : List Char :=
  if isPrefixL dataLit l then (l.drop 5).dropWhile isJsWs else l

/-! ## Protocol events and blocks -/

/-- A JavaScript value that may appear in a message `content`-like field.
`cstr` is a string; `cnull` models the falsy non-string values
(`null`/`undefined`); `cval` models any other (truthy) structured value,
carried together with its `JSON.stringify(·, null, 2)` rendering, which is
the only way the reconciler ever consumes such a value. -/
inductive Content where
  | cstr (s : List Char)
  | cnull
  | cval (rendered : List Char)
  deriving DecidableEq, Repr

/-- Message roles (the `type` field of a wire `ChatMsg`). -/
inductive Role where
  | human | ai | tool | custom
  deriving DecidableEq, Repr

/-- A tool invocation issued by the model (`ToolCall` in `ChatPage.vue`). -/
structure ToolCall where
  id : List Char
  name : List Char
  args : Content
  deriving DecidableEq, Repr

/-- The wire message shape (`ChatMsg` in `ChatPage.vue`). -/
structure ChatMsg where
  type : Role
  content : Content
  run_id : Option (List Char) := none
  tool_calls : Option (List ToolCall) := none
  tool_call_id : Option (List Char) := none
  custom_data : Option Content := none
  deriving DecidableEq, Repr

/-- A decoded protocol event as delivered to `onEvent`
(`StreamEvent` in `sse.ts`). -/
inductive StreamEvent where
  | token (content : List Char)
  | message (m : ChatMsg)
  | error (content : List Char)
  deriving DecidableEq, Repr

/-- What processing one complete event block does: nothing (no `data:`
line), terminate the stream (sentinel), or emit one event. -/
inductive BlockStep where
  | skip
  | stop
  | emit (ev : StreamEvent)
  deriving DecidableEq, Repr

/-- The payload of a block: its lines are `trimEnd`ed, the first line
starting with `data:` is selected, and the prefix plus following
whitespace is stripped. `none` when no line qualifies. -/
def payloadOf (block : List Char) : Option (List Char) :=
  (((splitNl block).map trimEnd).find? (fun l => isPrefixL dataLit l)).map stripData

/-- Processing of one complete event block in `streamChat`'s inner loop.
`parse` embeds `JSON.parse` followed by the unchecked cast to
`StreamEvent`; a `none` result models a parse exception. -/
def blockResult (parse : List Char → Option StreamEvent) (block : List Char) : BlockStep :=
  match payloadOf block with
  | none => .skip
  | some d =>
    if d = doneLit then .stop
    else
      match parse d with
      | some ev => .emit ev
      | none => .emit (.error badLit)

/-- Run the block loop over a list of complete blocks.  The first
component of the state is the halted flag (the `return` on `[DONE]`): once
set, the remaining blocks are not processed.  The second component is the
ordered list of events passed to `onEvent` so far. -/
def processBlocks (parse : List Char → Option StreamEvent)
    (st : Bool × List StreamEvent) (blocks : List (List Char)) :
    Bool × List StreamEvent :=
  blocks.foldl
    (fun st blk =>
      if st.1 then st
      else
        match blockResult parse blk with
        | .skip => st
        | .stop => (true, st.2)
        | .emit ev => (st.1, st.2 ++ [ev]))
    st

/-- Decoder state across network chunks: the retained incomplete text
fragment, whether the stream was terminated by `[DONE]` (after which the
function has returned and nothing further is read — the dead buffer is
normalised to `[]`), and the events emitted so far. -/
structure SseState where
  buffer : List Char
  halted : Bool
  events : List StreamEvent
  deriving DecidableEq, Repr

/-- Process one decoded text chunk: append to the buffer, split off the
complete blocks, run the block loop, retain the trailing fragment. -/
def processChunk (parse : List Char → Option StreamEvent)
    (s : SseState) (text : List Char) : SseState :=
  if s.halted then s
  else
    let sp := splitBlocks (s.buffer ++ text)
    let r := processBlocks parse (false, s.events) sp.1
    if r.1 then ⟨[], true, r.2⟩ else ⟨sp.2, false, r.2⟩

/-! ## Incremental byte-to-text decoding

`streamChat` feeds each network chunk through
`decoder.decode(value, { stream: true })`: an incremental UTF-8 decoder
that retains an incomplete trailing byte sequence between chunks, so that
a chunk boundary never has to fall on a character boundary.  The decoder
itself is platform code (`TextDecoder`); it is embedded here as an
executable incremental UTF-8 decoder.  Invalid byte sequences yield
U+FFFD; the second-byte range restrictions for the E0/ED/F0/F4 leads
(overlong/surrogate rejection) are not modelled — they affect which
invalid inputs yield how many U+FFFD, not chunk-boundary behaviour. -/

/-- The replacement character U+FFFD. -/
def repl : Char := Char.ofNat 0xFFFD

/-- Is the byte a UTF-8 continuation byte? -/
def utf8cont (b : Nat) : Bool := 0x80 ≤ b && b < 0xC0

/-- Build a character from a decoded code point, with U+FFFD for values
outside the scalar range. -/
def uchar (n : Nat) : Char :=
  if n < 0xD800 ∨ (0xE000 ≤ n ∧ n < 0x110000) then Char.ofNat n else repl

/-- Decode a byte list into characters plus the trailing incomplete
sequence (the bytes a streaming `TextDecoder` would retain for the next
chunk). -/
def decodeAll : List Nat → List Char × List Nat
  | [] => ([], [])
  | b :: bs =>
    if b < 0x80 then
      let p := decodeAll bs
      (uchar b :: p.1, p.2)
    else if b < 0xC2 then
      let p := decodeAll bs
      (repl :: p.1, p.2)
    else if b < 0xE0 then
      match bs with
      | [] => ([], [b])
      | c1 :: bs1 =>
        if utf8cont c1 then
          let p := decodeAll bs1
          (uchar ((b - 0xC0) * 64 + (c1 - 0x80)) :: p.1, p.2)
        else
          let p := decodeAll (c1 :: bs1)
          (repl :: p.1, p.2)
    else if b < 0xF0 then
      match bs with
      | [] => ([], [b])
      | c1 :: bs1 =>
        if utf8cont c1 then
          match bs1 with
          | [] => ([], [b, c1])
          | c2 :: bs2 =>
            if utf8cont c2 then
              let p := decodeAll bs2
              (uchar ((b - 0xE0) * 4096 + (c1 - 0x80) * 64 + (c2 - 0x80)) :: p.1, p.2)
            else
              let p := decodeAll (c2 :: bs2)
              (repl :: p.1, p.2)
        else
          let p := decodeAll (c1 :: bs1)
          (repl :: p.1, p.2)
    else if b < 0xF5 then
      match bs with
      | [] => ([], [b])
      | c1 :: bs1 =>
        if utf8cont c1 then
          match bs1 with
          | [] => ([], [b, c1])
          | c2 :: bs2 =>
            if utf8cont c2 then
              match bs2 with
              | [] => ([], [b, c1, c2])
              | c3 :: bs3 =>
                if utf8cont c3 then
                  let p := decodeAll bs3
                  (uchar ((b - 0xF0) * 262144 + (c1 - 0x80) * 4096 +
                      (c2 - 0x80) * 64 + (c3 - 0x80)) :: p.1, p.2)
                else
                  let p := decodeAll (c3 :: bs3)
                  (repl :: p.1, p.2)
            else
              let p := decodeAll (c2 :: bs2)
              (repl :: p.1, p.2)
        else
          let p := decodeAll (c1 :: bs1)
          (repl :: p.1, p.2)
    else
      let p := decodeAll bs
      (repl :: p.1, p.2)

/-- Full decoder state across network chunks: the bytes retained by the
incremental text decoder plus the SSE buffer state. -/
structure StreamState where
  pending : List Nat
  sse : SseState
  deriving DecidableEq, Repr

/-- The initial state of one `streamChat` call. -/
def initStream : StreamState := ⟨[], ⟨[], false, []⟩⟩

/-- One iteration of `streamChat`'s read loop on a received byte chunk. -/
def chunkStep (parse : List Char → Option StreamEvent)
    (st : StreamState) (bytes : List Nat) : StreamState :=
  let d := decodeAll (st.pending ++ bytes)
  ⟨d.2, processChunk parse st.sse d.1⟩

/-- Run the whole read loop over a fragmented byte stream. -/
def runStream (parse : List Char → Option StreamEvent)
    (chunks : List (List Nat)) : StreamState :=
  chunks.foldl (chunkStep parse) initStream

/-! ## Transcript reconciler (`ChatPage.vue`)

`UiMessage.id` (a freshly generated uuid, never inspected by the merge
logic) is not modelled.  JavaScript object mutation through the
`aiPlaceholder` reference is embedded as an update of the entry at the
placeholder's fixed index in the transcript list. -/

/-- A transcript entry (`UiMessage` in `ChatPage.vue`, minus the local
`id`). -/
structure UiMessage where
  role : Role
  content : List Char
  runId : Option (List Char) := none
  toolCalls : Option (List ToolCall) := none
  toolResults : Option (List (List Char × Content)) := none
  deriving DecidableEq, Repr

/-- `JSON.stringify(v, null, 2)` as consumed by the reconciler: strings
are quoted (escaping is not modelled — no merge decision reads this
text), `null` renders as `null`, other values carry their rendering. -/
def jsonStringify : Content → List Char
  | .cstr s => '"' :: (s ++ ['"'])
  | .cnull => "null".data
  | .cval j => j

/-- `typeof v === "string" ? v : JSON.stringify(v, null, 2)` — the
display rendering used by `toUiMessage` and the standalone tool entry. -/
def displayRender : Content → List Char
  | .cstr s => s
  | .cnull => jsonStringify .cnull
  | .cval j => j

/-- Is the JavaScript value truthy (`if (m.content)`)?  Falsy non-string
non-null values (e.g. the number 0) are represented by `cnull`. -/
def truthy : Content → Bool
  | .cstr s => !s.isEmpty
  | .cnull => false
  | .cval _ => true

/-- `toUiMessage`: project one wire message to a fresh transcript entry.
`m.tool_calls || undefined` is the identity on the embedded option (an
empty array is truthy in JavaScript). -/
def toUiMessage (m : ChatMsg) : UiMessage :=
  { role := m.type
    content := displayRender m.content
    runId := m.run_id
    toolCalls := m.tool_calls
    toolResults := some [] }

/-- Update one list element in place (`list[i] = f(list[i])`); out-of-range
indices leave the list unchanged. -/
def modifyAt (f : UiMessage → UiMessage) : Nat → List UiMessage → List UiMessage
  | _, [] => []
  | 0, u :: us => f u :: us
  | n + 1, u :: us => u :: modifyAt f n us

/-- The loop guard of `attachToolResult`: an `ai` entry whose non-empty
`toolCalls` contains the id. -/
def tcMatch (id : List Char) (u : UiMessage) : Bool :=
  match u.role, u.toolCalls with
  | .ai, some l => !l.isEmpty && l.any (fun tc => tc.id = id)
  | _, _ => false

/-- `record[key] = value` on a JavaScript object embedded as an
association list: overwrite in place, or append a new key. -/
def recSet (k : List Char) (v : Content) :
    List (List Char × Content) → List (List Char × Content)
  | [] => [(k, v)]
  | (k', v') :: rest => if k' = k then (k, v) :: rest else (k', v') :: recSet k v rest

/-- Store a result under `id` in an entry's `toolResults`
(`msg.toolResults = msg.toolResults || {}; msg.toolResults[id] = result`). -/
def storeResult (id : List Char) (r : Content) (u : UiMessage) : UiMessage :=
  { u with toolResults := some (recSet id r (u.toolResults.getD [])) }

/-- The backward scan of `attachToolResult`: update the **last** entry
matched by `tcMatch` (the JavaScript loop runs from the end of the array
and returns at the first hit); `none` when no entry matches. -/
def attachGo (id : List Char) (r : Content) : List UiMessage → Option (List UiMessage)
  | [] => none
  | u :: rest =>
    match attachGo id r rest with
    | some rest' => some (u :: rest')
    | none => if tcMatch id u then some (storeResult id r u :: rest) else none

/-- `attachToolResult`: attach a tool result to the most recent matching
`ai` entry, or append a standalone `tool`-role entry when none matches. -/
def attachToolResult (id : List Char) (r : Content) (msgs : List UiMessage) :
    List UiMessage :=
  match attachGo id r msgs with
  | some l => l
  | none => msgs ++ [{ role := .tool, content := displayRender r }]

/-- The content assigned to the in-flight entry by a `Message{ai}` event:
a non-empty string replaces the accumulated content, any other truthy
value replaces it with its rendering, a falsy value keeps it. -/
def aiNewContent (old : List Char) (c : Content) : List Char :=
  match c with
  | .cstr s => if s.isEmpty then old else s
  | .cnull => old
  | .cval j => j

/-- The error notice appended for an `error` protocol event. -/
def errNotice (c : List Char) : List Char := "\n\n[Error] ".data ++ c

/-- The content of the standalone entry appended for a `custom` message
(`typeof custom_data === "string" ? custom_data
 : JSON.stringify(custom_data ?? content, null, 2)`). -/
def customContent (m : ChatMsg) : List Char :=
  match m.custom_data with
  | some (.cstr s) => s
  | some .cnull => jsonStringify m.content
  | some (.cval j) => j
  | none => jsonStringify m.content

/-- The `onEvent` callback of `send`: apply one protocol event to the
transcript, `idx` being the position of the in-flight `ai` placeholder. -/
def applyEvent (idx : Nat) (msgs : List UiMessage) (ev : StreamEvent) :
    List UiMessage :=
  match ev with
  | .token c => modifyAt (fun u => { u with content := u.content ++ c }) idx msgs
  | .error c => modifyAt (fun u => { u with content := u.content ++ errNotice c }) idx msgs
  | .message m =>
    match m.type with
    | .ai =>
      modifyAt
        (fun u =>
          { u with
            content := aiNewContent u.content m.content
            runId := m.run_id
            toolCalls := some (m.tool_calls.getD [])
            toolResults := some (u.toolResults.getD []) })
        idx msgs
    | .tool =>
      match m.tool_call_id with
      | some id => attachToolResult id m.content msgs
      | none => msgs
    | .custom => msgs ++ [{ role := .custom, content := customContent m }]
    | .human => msgs

/-! ### History loading

`loadHistory` pushes the projected entries onto a **local** array `ui`,
while `attachToolResult` reads and mutates the component state
`messages.value` (the transcript as it was before the load, possibly
grown by orphan pushes); only after the loop does `messages.value = ui`
replace the transcript wholesale.  The fold below carries both lists,
exactly as the source does. -/

def loadHistoryStep (acc : List UiMessage × List UiMessage) (m : ChatMsg) :
    List UiMessage × List UiMessage :=
  let ui := acc.1 ++ [toUiMessage m]
  let live :=
    match m.type, m.tool_call_id with
    | .tool, some id => attachToolResult id m.content acc.2
    | _, _ => acc.2
  (ui, live)

def loadHistory (old : List UiMessage) (hist : List ChatMsg) : List UiMessage :=
  (hist.foldl loadHistoryStep ([], old)).1

/-! ### The send operation -/

/-- `input.trim()`: strip JavaScript whitespace from both ends. -/
def jsTrim (l : List Char) : List Char :=
  trimEnd (l.dropWhile isJsWs)

/-- The notice appended when opening or reading the stream throws. -/
def failNotice (m : List Char) : List Char := "\n\n[Stream Failed] ".data ++ m

/-- The observable outcome of the awaited stream: either it completes
normally after delivering the listed events, or it throws (init failure
or transport interruption) after delivering them. -/
inductive Outcome where
  | success (evs : List StreamEvent)
  | failure (evs : List StreamEvent) (msg : List Char)
  deriving DecidableEq, Repr

/-- The events the stream delivered before completing or throwing. -/
def Outcome.evs : Outcome → List StreamEvent
  | .success evs => evs
  | .failure evs _ => evs

/-- Component state touched by `send`. -/
structure PageState where
  messages : List UiMessage
  input : List Char
  loading : Bool
  deriving DecidableEq, Repr

/-- The `send` operation for a given stream outcome: reject when the
trimmed input is empty or a send is in flight; otherwise set the busy
flag, push the `human` entry and the `ai` placeholder, fold the delivered
events, on a throw append the failure notice to the placeholder (the
`catch`), and clear the busy flag (the `finally`, reached on every path). -/
def send (st : PageState) (o : Outcome) : PageState :=
  let text := jsTrim st.input
  if text.isEmpty ∨ st.loading then st
  else
    let idx := st.messages.length + 1
    let msgs1 := st.messages ++
      [{ role := .human, content := text },
       { role := .ai, content := [], toolCalls := some [], toolResults := some [] }]
    let msgs2 := (o.evs).foldl (applyEvent idx) msgs1
    let msgs3 :=
      match o with
      | .success _ => msgs2
      | .failure _ m =>
        modifyAt (fun u => { u with content := u.content ++ failNotice m }) idx msgs2
    { messages := msgs3, input := [], loading := false }

/-- Does the first list occur as a suffix of the second? -/
def endsWithL (s l : List Char) : Bool :=
  isPrefixL s.reverse l.reverse

/-- For a given stream outcome, the check the in-flight entry must pass:
after a throw the failure notice must have been appended to its content;
after normal completion there is nothing to check. -/
def noticeOk (o : Outcome) (u : UiMessage) : Bool :=
  match o with
  | .success _ => true
  | .failure _ m => endsWithL (failNotice m) u.content

/-- A concrete two-message history: an `ai` message carrying one tool
call `t1` followed by the `tool` message carrying the result for `t1`. -/
def histC1 : List ChatMsg :=
  [{ type := .ai, content := .cstr "x".data,
     tool_calls := some [{ id := "t1".data, name := "f".data, args := .cnull }] },
   { type := .tool, content := .cstr "r".data, tool_call_id := some "t1".data }]

/-- The in-flight shape of a transcript during one `send` whose prior
transcript had `stLen` entries and whose `human` entry is `hm`: the
`human` entry sits unchanged at `stLen`, the entry after it has role
`ai`, and it is the only `ai`-role entry appended by this send. -/
def sendInv (stLen : Nat) (hm : UiMessage) (msgs : List UiMessage) : Prop :=
  msgs[stLen]? = some hm ∧
  (msgs[stLen + 1]?).map (fun u => u.role) = some .ai ∧
  ((msgs.map (fun u => u.role)).drop stLen).count .ai = 1

/-- A concrete `human`-role transcript entry used in concrete examples. -/
def humanW : UiMessage := { role := .human, content := "hi".data }

/-- A concrete `ai`-role transcript entry carrying two tool calls `a` and
`b` with no results yet, used in concrete examples. -/
def aiW : UiMessage :=
  { role := .ai, content := "m".data
    toolCalls := some
      [{ id := "a".data, name := "f".data, args := .cnull },
       { id := "b".data, name := "g".data, args := .cnull }]
    toolResults := some [] }

/-- A concrete page state used in concrete examples: empty transcript,
pending input `" hi "`, not busy. -/
def pgW : PageState := { messages := [], input := " hi ".data, loading := false }

/-- A concrete stream outcome used in concrete examples: one token delta
delivered, then the transport throws. -/
def outW : Outcome := .failure [.token "He".data] ("boom".data)

/-- A trivial payload parser used for concrete witness inputs: every
payload fails to parse. -/
def parseNone : List Char → Option StreamEvent := fun _ => none

/-- A small concrete payload parser used for witness inputs: the payload
`T` parses to a token event, everything else fails. -/
def parseTok : List Char → Option StreamEvent := fun d =>
  if d = "T".data then some (.token "x".data) else none

end KnowLedgeLib

/-! # Theorems -/

namespace KnowLedgeLib

/-! ## Splitting lemmas -/

theorem splitBlocks_fst_nil : ∀ z : List Char, (splitBlocks z).1 = [] → (splitBlocks z).2 = z := by
  intro z
  induction z using splitBlocks.induct with
  | case1 => simp [splitBlocks]
  | case2 c => simp [splitBlocks]
  | case3 c d rest hcd ih => intro h; simp [splitBlocks, hcd.1, hcd.2] at h
  | case4 c d rest hcd p hp ih =>
    intro _
    have hp' : (splitBlocks (d :: rest)).1 = [] := hp
    simp [splitBlocks, if_neg hcd, hp', ih hp']
  | case5 c d rest hcd p b bs hp ih =>
    intro h
    have hp' : (splitBlocks (d :: rest)).1 = b :: bs := hp
    simp [splitBlocks, if_neg hcd, hp'] at h

theorem splitBlocks_append (x y : List Char) :
    splitBlocks (x ++ y) =
      ((splitBlocks x).1 ++ (splitBlocks ((splitBlocks x).2 ++ y)).1,
       (splitBlocks ((splitBlocks x).2 ++ y)).2) := by
  induction x using splitBlocks.induct with
  | case1 => simp [splitBlocks]
  | case2 c => simp [splitBlocks]
  | case3 c d rest hcd ih =>
    obtain ⟨hc, hd⟩ := hcd
    subst hc; subst hd
    simp [splitBlocks, ih]
  | case4 c d rest hcd p hp ih =>
    have hp' : (splitBlocks (d :: rest)).1 = [] := hp
    have h2 := splitBlocks_fst_nil _ hp'
    have hx : splitBlocks (c :: d :: rest) = ([], c :: d :: rest) := by
      simp [splitBlocks, if_neg hcd, hp', h2]
    rw [hx]
    simp
  | case5 c d rest hcd p b bs hp ih =>
    have hp' : (splitBlocks (d :: rest)).1 = b :: bs := hp
    simp only [List.cons_append]
    rw [splitBlocks, splitBlocks]
    simp only [if_neg hcd]
    rw [show d :: (rest ++ y) = (d :: rest) ++ y from rfl, ih, hp']
    simp

/-! ## Block-loop lemmas -/

theorem processBlocks_app (parse : List Char → Option StreamEvent)
    (st : Bool × List StreamEvent) (l1 l2 : List (List Char)) :
    processBlocks parse st (l1 ++ l2) = processBlocks parse (processBlocks parse st l1) l2 := by
  simp [processBlocks, List.foldl_append]

theorem processBlocks_halted (parse : List Char → Option StreamEvent) :
    ∀ (bs : List (List Char)) (st : Bool × List StreamEvent), st.1 = true →
      processBlocks parse st bs = st := by
  intro bs
  induction bs with
  | nil => intro st h; rfl
  | cons blk bs ih =>
    intro st h
    unfold processBlocks
    simp only [List.foldl_cons, h, if_true]
    exact ih st h

theorem processChunk_append (parse : List Char → Option StreamEvent) (s : SseState)
    (a b : List Char) :
    processChunk parse (processChunk parse s a) b = processChunk parse s (a ++ b) := by
  by_cases hs : s.halted
  · simp [processChunk, hs]
  · have key : splitBlocks (s.buffer ++ (a ++ b)) =
        ((splitBlocks (s.buffer ++ a)).1 ++
          (splitBlocks ((splitBlocks (s.buffer ++ a)).2 ++ b)).1,
         (splitBlocks ((splitBlocks (s.buffer ++ a)).2 ++ b)).2) := by
      rw [← List.append_assoc]
      exact splitBlocks_append (s.buffer ++ a) b
    cases hE : processBlocks parse (false, s.events) (splitBlocks (s.buffer ++ a)).1 with
    | mk d1 e1 =>
      cases d1 with
      | true =>
        have lhs1 : processChunk parse s a = ⟨[], true, e1⟩ := by
          simp [processChunk, hs, hE]
        rw [lhs1]
        have rhs1 : processChunk parse s (a ++ b) = ⟨[], true, e1⟩ := by
          simp only [processChunk, hs, if_neg, Bool.false_eq_true, if_false, key]
          rw [processBlocks_app, hE, processBlocks_halted parse _ (true, e1) rfl]
          simp
        rw [rhs1]
        simp [processChunk]
      | false =>
        have lhs1 : processChunk parse s a = ⟨(splitBlocks (s.buffer ++ a)).2, false, e1⟩ := by
          simp [processChunk, hs, hE]
        rw [lhs1]
        simp only [processChunk, hs, Bool.false_eq_true, if_false, key]
        rw [processBlocks_app, hE]

/-! ## Incremental-decoder step lemmas -/

theorem dA_nil : decodeAll [] = ([], []) := rfl

theorem dA_ascii (b : Nat) (bs : List Nat) (h : b < 128) :
    decodeAll (b :: bs) = (uchar b :: (decodeAll bs).1, (decodeAll bs).2) := by
  rw [decodeAll.eq_def]
  simp [h]

theorem dA_badlead (b : Nat) (bs : List Nat) (h1 : 128 ≤ b) (h2 : b < 194) :
    decodeAll (b :: bs) = (repl :: (decodeAll bs).1, (decodeAll bs).2) := by
  have n1 : ¬ b < 128 := by omega
  rw [decodeAll.eq_def]
  simp [n1, h2]

theorem dA_hi (b : Nat) (bs : List Nat) (h : 245 ≤ b) :
    decodeAll (b :: bs) = (repl :: (decodeAll bs).1, (decodeAll bs).2) := by
  have n1 : ¬ b < 128 := by omega
  have n2 : ¬ b < 194 := by omega
  have n3 : ¬ b < 224 := by omega
  have n4 : ¬ b < 240 := by omega
  have n5 : ¬ b < 245 := by omega
  rw [decodeAll.eq_def]
  simp [n1, n2, n3, n4, n5]

theorem dA_two_nil (b : Nat) (h1 : 194 ≤ b) (h2 : b < 224) :
    decodeAll [b] = ([], [b]) := by
  have n1 : ¬ b < 128 := by omega
  have n2 : ¬ b < 194 := by omega
  rw [decodeAll.eq_def]
  simp [n1, n2, h2]

theorem dA_two_ok (b c : Nat) (bs : List Nat) (h1 : 194 ≤ b) (h2 : b < 224)
    (hc : utf8cont c = true) :
    decodeAll (b :: c :: bs) =
      (uchar ((b - 0xC0) * 64 + (c - 0x80)) :: (decodeAll bs).1, (decodeAll bs).2) := by
  have n1 : ¬ b < 128 := by omega
  have n2 : ¬ b < 194 := by omega
  rw [decodeAll.eq_def]
  simp [n1, n2, h2, hc]

theorem dA_two_bad (b c : Nat) (bs : List Nat) (h1 : 194 ≤ b) (h2 : b < 224)
    (hc : utf8cont c = false) :
    decodeAll (b :: c :: bs) = (repl :: (decodeAll (c :: bs)).1, (decodeAll (c :: bs)).2) := by
  have n1 : ¬ b < 128 := by omega
  have n2 : ¬ b < 194 := by omega
  rw [decodeAll.eq_def]
  simp [n1, n2, h2, hc]

theorem dA_three_nil (b : Nat) (h1 : 224 ≤ b) (h2 : b < 240) :
    decodeAll [b] = ([], [b]) := by
  have n1 : ¬ b < 128 := by omega
  have n2 : ¬ b < 194 := by omega
  have n3 : ¬ b < 224 := by omega
  rw [decodeAll.eq_def]
  simp [n1, n2, n3, h2]

theorem dA_three_one (b c : Nat) (h1 : 224 ≤ b) (h2 : b < 240) (hc : utf8cont c = true) :
    decodeAll [b, c] = ([], [b, c]) := by
  have n1 : ¬ b < 128 := by omega
  have n2 : ¬ b < 194 := by omega
  have n3 : ¬ b < 224 := by omega
  rw [decodeAll.eq_def]
  simp [n1, n2, n3, h2, hc]

theorem dA_three_ok (b c1 c2 : Nat) (bs : List Nat) (h1 : 224 ≤ b) (h2 : b < 240)
    (hc1 : utf8cont c1 = true) (hc2 : utf8cont c2 = true) :
    decodeAll (b :: c1 :: c2 :: bs) =
      (uchar ((b - 0xE0) * 4096 + (c1 - 0x80) * 64 + (c2 - 0x80)) :: (decodeAll bs).1,
       (decodeAll bs).2) := by
  have n1 : ¬ b < 128 := by omega
  have n2 : ¬ b < 194 := by omega
  have n3 : ¬ b < 224 := by omega
  rw [decodeAll.eq_def]
  simp [n1, n2, n3, h2, hc1, hc2]

theorem dA_three_bad2 (b c1 c2 : Nat) (bs : List Nat) (h1 : 224 ≤ b) (h2 : b < 240)
    (hc1 : utf8cont c1 = true) (hc2 : utf8cont c2 = false) :
    decodeAll (b :: c1 :: c2 :: bs) =
      (repl :: (decodeAll (c2 :: bs)).1, (decodeAll (c2 :: bs)).2) := by
  have n1 : ¬ b < 128 := by omega
  have n2 : ¬ b < 194 := by omega
  have n3 : ¬ b < 224 := by omega
  rw [decodeAll.eq_def]
  simp [n1, n2, n3, h2, hc1, hc2]

theorem dA_three_bad1 (b c1 : Nat) (bs : List Nat) (h1 : 224 ≤ b) (h2 : b < 240)
    (hc1 : utf8cont c1 = false) :
    decodeAll (b :: c1 :: bs) =
      (repl :: (decodeAll (c1 :: bs)).1, (decodeAll (c1 :: bs)).2) := by
  have n1 : ¬ b < 128 := by omega
  have n2 : ¬ b < 194 := by omega
  have n3 : ¬ b < 224 := by omega
  rw [decodeAll.eq_def]
  simp [n1, n2, n3, h2, hc1]

theorem dA_four_nil (b : Nat) (h1 : 240 ≤ b) (h2 : b < 245) :
    decodeAll [b] = ([], [b]) := by
  have n1 : ¬ b < 128 := by omega
  have n2 : ¬ b < 194 := by omega
  have n3 : ¬ b < 224 := by omega
  have n4 : ¬ b < 240 := by omega
  rw [decodeAll.eq_def]
  simp [n1, n2, n3, n4, h2]

theorem dA_four_one (b c : Nat) (h1 : 240 ≤ b) (h2 : b < 245) (hc : utf8cont c = true) :
    decodeAll [b, c] = ([], [b, c]) := by
  have n1 : ¬ b < 128 := by omega
  have n2 : ¬ b < 194 := by omega
  have n3 : ¬ b < 224 := by omega
  have n4 : ¬ b < 240 := by omega
  rw [decodeAll.eq_def]
  simp [n1, n2, n3, n4, h2, hc]

theorem dA_four_two (b c1 c2 : Nat) (h1 : 240 ≤ b) (h2 : b < 245)
    (hc1 : utf8cont c1 = true) (hc2 : utf8cont c2 = true) :
    decodeAll [b, c1, c2] = ([], [b, c1, c2]) := by
  have n1 : ¬ b < 128 := by omega
  have n2 : ¬ b < 194 := by omega
  have n3 : ¬ b < 224 := by omega
  have n4 : ¬ b < 240 := by omega
  rw [decodeAll.eq_def]
  simp [n1, n2, n3, n4, h2, hc1, hc2]

theorem dA_four_ok (b c1 c2 c3 : Nat) (bs : List Nat) (h1 : 240 ≤ b) (h2 : b < 245)
    (hc1 : utf8cont c1 = true) (hc2 : utf8cont c2 = true) (hc3 : utf8cont c3 = true) :
    decodeAll (b :: c1 :: c2 :: c3 :: bs) =
      (uchar ((b - 0xF0) * 262144 + (c1 - 0x80) * 4096 + (c2 - 0x80) * 64 + (c3 - 0x80)) ::
         (decodeAll bs).1,
       (decodeAll bs).2) := by
  have n1 : ¬ b < 128 := by omega
  have n2 : ¬ b < 194 := by omega
  have n3 : ¬ b < 224 := by omega
  have n4 : ¬ b < 240 := by omega
  rw [decodeAll.eq_def]
  simp [n1, n2, n3, n4, h2, hc1, hc2, hc3]

theorem dA_four_bad3 (b c1 c2 c3 : Nat) (bs : List Nat) (h1 : 240 ≤ b) (h2 : b < 245)
    (hc1 : utf8cont c1 = true) (hc2 : utf8cont c2 = true) (hc3 : utf8cont c3 = false) :
    decodeAll (b :: c1 :: c2 :: c3 :: bs) =
      (repl :: (decodeAll (c3 :: bs)).1, (decodeAll (c3 :: bs)).2) := by
  have n1 : ¬ b < 128 := by omega
  have n2 : ¬ b < 194 := by omega
  have n3 : ¬ b < 224 := by omega
  have n4 : ¬ b < 240 := by omega
  rw [decodeAll.eq_def]
  simp [n1, n2, n3, n4, h2, hc1, hc2, hc3]

theorem dA_four_bad2 (b c1 c2 : Nat) (bs : List Nat) (h1 : 240 ≤ b) (h2 : b < 245)
    (hc1 : utf8cont c1 = true) (hc2 : utf8cont c2 = false) :
    decodeAll (b :: c1 :: c2 :: bs) =
      (repl :: (decodeAll (c2 :: bs)).1, (decodeAll (c2 :: bs)).2) := by
  have n1 : ¬ b < 128 := by omega
  have n2 : ¬ b < 194 := by omega
  have n3 : ¬ b < 224 := by omega
  have n4 : ¬ b < 240 := by omega
  rw [decodeAll.eq_def]
  simp [n1, n2, n3, n4, h2, hc1, hc2]

theorem dA_four_bad1 (b c1 : Nat) (bs : List Nat) (h1 : 240 ≤ b) (h2 : b < 245)
    (hc1 : utf8cont c1 = false) :
    decodeAll (b :: c1 :: bs) =
      (repl :: (decodeAll (c1 :: bs)).1, (decodeAll (c1 :: bs)).2) := by
  have n1 : ¬ b < 128 := by omega
  have n2 : ¬ b < 194 := by omega
  have n3 : ¬ b < 224 := by omega
  have n4 : ¬ b < 240 := by omega
  rw [decodeAll.eq_def]
  simp [n1, n2, n3, n4, h2, hc1]

/-- Appending bytes to an input extends the incremental decode exactly by
the decode of (retained pending bytes ++ new bytes): the key
chunk-boundary safety property of the decoder. -/
theorem decodeAll_append (x y : List Nat) :
    decodeAll (x ++ y) =
      ((decodeAll x).1 ++ (decodeAll ((decodeAll x).2 ++ y)).1,
       (decodeAll ((decodeAll x).2 ++ y)).2) := by
  induction x using decodeAll.induct with
  | case1 => simp [dA_nil]
  | _ =>
    simp_all [List.cons_append, Nat.not_lt, Bool.not_eq_true,
      dA_ascii, dA_badlead, dA_hi, dA_two_nil, dA_two_ok, dA_two_bad,
      dA_three_nil, dA_three_one, dA_three_ok, dA_three_bad2, dA_three_bad1,
      dA_four_nil, dA_four_one, dA_four_two, dA_four_ok, dA_four_bad3,
      dA_four_bad2, dA_four_bad1]

/-! ## Whole-pipeline composition -/

theorem chunkStep_append (parse : List Char → Option StreamEvent) (st : StreamState)
    (a b : List Nat) :
    chunkStep parse (chunkStep parse st a) b = chunkStep parse st (a ++ b) := by
  have key : decodeAll (st.pending ++ (a ++ b)) =
      ((decodeAll (st.pending ++ a)).1 ++
        (decodeAll ((decodeAll (st.pending ++ a)).2 ++ b)).1,
       (decodeAll ((decodeAll (st.pending ++ a)).2 ++ b)).2) := by
    rw [← List.append_assoc]
    exact decodeAll_append (st.pending ++ a) b
  simp only [chunkStep, key]
  rw [← processChunk_append]

theorem runStream_cons (parse : List Char → Option StreamEvent) :
    ∀ (cs : List (List Nat)) (st : StreamState) (a : List Nat),
      cs.foldl (chunkStep parse) (chunkStep parse st a) =
        chunkStep parse st (a ++ cs.flatten) := by
  intro cs
  induction cs with
  | nil => intro st a; simp
  | cons c cs ih =>
    intro st a
    simp only [List.foldl_cons, List.flatten_cons]
    rw [ih (chunkStep parse st a) c, chunkStep_append]

/-- C3: for every byte stream and every fragmentation of it into chunks —
including splits inside the blank-line delimiter, inside a multi-byte
UTF-8 character, and inside the `data:` prefix — the decoder reaches
exactly the same state (in particular, emits exactly the same event
sequence) as for any other fragmentation of the same bytes. -/
theorem chunk_boundary_independence (parse : List Char → Option StreamEvent)
    (css dss : List (List Nat)) (h : css.flatten = dss.flatten) :
    runStream parse css = runStream parse dss := by
  have canon : ∀ es : List (List Nat), runStream parse es = runStream parse [es.flatten] := by
    intro es
    cases es with
    | nil => rfl
    | cons c cs =>
      show (c :: cs).foldl (chunkStep parse) initStream = _
      simp only [List.foldl_cons, List.flatten_cons]
      rw [runStream_cons parse cs initStream c]
      rfl
  rw [canon css, canon dss, h]

/-- Witness for C3: the bytes of `data: éT\n\n` split across four chunks —
one split inside the `data:` prefix and one inside the two-byte character
`é` — decode to the same state as the unfragmented stream. -/
theorem chunk_boundary_independence_witness :
    ([[0x64, 0x61, 0x74], [0x61, 0x3A, 0x20, 0xC3], [0xA9, 0x54, 0x0A], [0x0A]] :
        List (List Nat)).flatten =
      ([[0x64, 0x61, 0x74, 0x61, 0x3A, 0x20, 0xC3, 0xA9, 0x54, 0x0A, 0x0A]] :
        List (List Nat)).flatten ∧
    runStream parseTok [[0x64, 0x61, 0x74], [0x61, 0x3A, 0x20, 0xC3], [0xA9, 0x54, 0x0A], [0x0A]] =
      runStream parseTok [[0x64, 0x61, 0x74, 0x61, 0x3A, 0x20, 0xC3, 0xA9, 0x54, 0x0A, 0x0A]] :=
  ⟨by decide,
   chunk_boundary_independence parseTok
     [[0x64, 0x61, 0x74], [0x61, 0x3A, 0x20, 0xC3], [0xA9, 0x54, 0x0A], [0x0A]]
     [[0x64, 0x61, 0x74, 0x61, 0x3A, 0x20, 0xC3, 0xA9, 0x54, 0x0A, 0x0A]] (by decide)⟩

/-! ## Per-block theorems (C2, C4, C8) -/

theorem processBlocks_cons (parse : List Char → Option StreamEvent)
    (st : Bool × List StreamEvent) (blk : List Char) (rest : List (List Char)) :
    processBlocks parse st (blk :: rest) =
      processBlocks parse
        (if st.1 then st
         else
           match blockResult parse blk with
           | .skip => st
           | .stop => (true, st.2)
           | .emit ev => (st.1, st.2 ++ [ev]))
        rest := rfl

/-- Counterexample to C2: the claim says the decoder strips the `data:`
prefix and **exactly one** following space, so that the line
`data:  [DONE]` (two spaces) would yield the payload ` [DONE]` and be
parsed instead of terminating the stream.  In the code the regex
`/^data:\s*/` strips the whole whitespace run: the payload is `[DONE]`
and the block terminates the stream. -/
theorem data_strip_counterexample :
    stripData ("data:  [DONE]".data) = "[DONE]".data ∧
    stripData ("data:  [DONE]".data) ≠ " [DONE]".data ∧
    blockResult parseNone ("data:  [DONE]".data) = .stop := by
  refine ⟨by decide, by decide, ?_⟩
  decide

/-- C2 (amended): the decoder strips the literal prefix `data:` and
**all** following whitespace; in particular `data:  [DONE]` yields the
payload `[DONE]`, which is the sentinel, and the block terminates the
stream. -/
theorem data_strip_amended :
    (∀ l : List Char, stripData (dataLit ++ l) = l.dropWhile isJsWs) ∧
    (∀ (parse : List Char → Option StreamEvent) (evs : List StreamEvent)
       (rest : List (List Char)),
      processBlocks parse (false, evs) (("data:  [DONE]".data) :: rest) = (true, evs)) := by
  constructor
  · intro l
    have hlit : dataLit = ['d', 'a', 't', 'a', ':'] := rfl
    have hp : isPrefixL dataLit (dataLit ++ l) = true := by
      rw [hlit]
      simp [isPrefixL]
    have hdrop : (dataLit ++ l).drop 5 = l := rfl
    simp [stripData, hp, hdrop]
  · intro parse evs rest
    have hpay : payloadOf ("data:  [DONE]".data) = some doneLit := by decide
    have hb : blockResult parse ("data:  [DONE]".data) = .stop := by
      simp [blockResult, hpay]
    rw [processBlocks_cons]
    simp only [hb]
    exact processBlocks_halted parse rest (true, evs) rfl

/-- C4: when a complete block's payload is the `[DONE]` sentinel (and no
earlier block already stopped the stream), the block loop terminates
there — it returns the events accumulated before that block, marks the
stream halted, and processes none of the following blocks; moreover a
halted decoder state absorbs every further chunk, so buffered or later
bytes are discarded. -/
theorem sentinel_precedence (parse : List Char → Option StreamEvent)
    (evs : List StreamEvent) (bs1 bs2 : List (List Char)) (db : List Char)
    (h1 : (processBlocks parse (false, evs) bs1).1 = false)
    (h2 : blockResult parse db = .stop) :
    processBlocks parse (false, evs) (bs1 ++ db :: bs2) =
      (true, (processBlocks parse (false, evs) bs1).2) ∧
    (∀ (s : SseState) (c : List Char), s.halted = true → processChunk parse s c = s) := by
  constructor
  · rw [processBlocks_app]
    cases hE : processBlocks parse (false, evs) bs1 with
    | mk d1 e1 =>
      rw [hE] at h1
      subst h1
      rw [processBlocks_cons]
      simp only [h2]
      exact processBlocks_halted parse bs2 (true, e1) rfl
  · intro s c hs
    simp [processChunk, hs]

/-- Witness for C4 at a concrete block list. -/
theorem sentinel_precedence_witness :
    (processBlocks parseNone (false, []) [("data: x".data)]).1 = false ∧
    blockResult parseNone ("data: [DONE]".data) = .stop ∧
    processBlocks parseNone (false, [])
        ([("data: x".data)] ++ ("data: [DONE]".data) :: [("data: y".data)]) =
      (true, (processBlocks parseNone (false, []) [("data: x".data)]).2) := by
  refine ⟨by decide, by decide, ?_⟩
  exact (sentinel_precedence parseNone [] [("data: x".data)] [("data: y".data)]
    ("data: [DONE]".data) (by decide) (by decide)).1

/-- C8: a block whose extracted payload is not the sentinel and fails to
parse yields exactly one `Error` event carrying the fixed diagnostic
message, after which the loop continues with the remaining blocks
unimpeded. -/
theorem malformed_payload_isolation (parse : List Char → Option StreamEvent)
    (evs : List StreamEvent) (block : List Char) (rest : List (List Char)) (d : List Char)
    (hd : payloadOf block = some d) (hne : d ≠ doneLit) (hp : parse d = none) :
    blockResult parse block = .emit (.error badLit) ∧
    processBlocks parse (false, evs) (block :: rest) =
      processBlocks parse (false, evs ++ [.error badLit]) rest := by
  have hb : blockResult parse block = .emit (.error badLit) := by
    simp [blockResult, hd, hne, hp]
  refine ⟨hb, ?_⟩
  rw [processBlocks_cons]
  simp [hb]

/-- Witness for C8 at a concrete malformed block. -/
theorem malformed_payload_isolation_witness :
    payloadOf ("data: junk".data) = some ("junk".data) ∧
    ("junk".data ≠ doneLit) ∧
    parseNone ("junk".data) = none ∧
    processBlocks parseNone (false, []) (("data: junk".data) :: [("data: T".data)]) =
      processBlocks parseNone (false, [.error badLit]) [("data: T".data)] := by
  refine ⟨by decide, by decide, rfl, ?_⟩
  exact (malformed_payload_isolation parseNone [] ("data: junk".data) [("data: T".data)]
    ("junk".data) (by decide) (by decide) rfl).2

/-! ## List-update lemmas -/

theorem modifyAt_get_self (f : UiMessage → UiMessage) :
    ∀ (i : Nat) (l : List UiMessage), (modifyAt f i l)[i]? = (l[i]?).map f := by
  intro i
  induction i with
  | zero => intro l; cases l <;> simp [modifyAt]
  | succ n ih => intro l; cases l <;> simp [modifyAt, ih]

theorem modifyAt_get_ne (f : UiMessage → UiMessage) :
    ∀ (i j : Nat) (l : List UiMessage), j ≠ i → (modifyAt f i l)[j]? = l[j]? := by
  intro i
  induction i with
  | zero =>
    intro j l hj
    cases l with
    | nil => simp [modifyAt]
    | cons u us =>
      cases j with
      | zero => exact absurd rfl hj
      | succ k => simp [modifyAt]
  | succ n ih =>
    intro j l hj
    cases l with
    | nil => simp [modifyAt]
    | cons u us =>
      cases j with
      | zero => simp [modifyAt]
      | succ k =>
        simp only [modifyAt, List.getElem?_cons_succ]
        exact ih k us (fun h => hj (by rw [h]))

theorem modifyAt_map_role (f : UiMessage → UiMessage) (hf : ∀ u, (f u).role = u.role) :
    ∀ (i : Nat) (l : List UiMessage),
      (modifyAt f i l).map (fun u => u.role) = l.map (fun u => u.role) := by
  intro i
  induction i with
  | zero => intro l; cases l <;> simp [modifyAt, hf]
  | succ n ih => intro l; cases l <;> simp [modifyAt, ih]

/-! ## C10 -/

/-- C10: a streamed `Message` event whose role is neither `ai`, nor
`tool` with a `tool_call_id`, nor `custom`, leaves the transcript
completely unchanged. -/
theorem message_other_roles_frame (idx : Nat) (msgs : List UiMessage) (m : ChatMsg)
    (h : m.type = .human ∨ (m.type = .tool ∧ m.tool_call_id = none)) :
    applyEvent idx msgs (.message m) = msgs := by
  rcases h with h | ⟨h1, h2⟩
  · simp [applyEvent, h]
  · simp [applyEvent, h1, h2]

/-- Witness for C10 at a concrete human-role and id-less tool-role event. -/
theorem message_other_roles_frame_witness :
    (({ type := .human, content := .cstr "hi".data } : ChatMsg).type = .human ∨
      (({ type := .human, content := .cstr "hi".data } : ChatMsg).type = .tool ∧
        ({ type := .human, content := .cstr "hi".data } : ChatMsg).tool_call_id = none)) ∧
    applyEvent 0 [{ role := .ai, content := "acc".data }]
        (.message { type := .human, content := .cstr "hi".data }) =
      [{ role := .ai, content := "acc".data }] ∧
    applyEvent 0 [{ role := .ai, content := "acc".data }]
        (.message { type := .tool, content := .cstr "res".data }) =
      [{ role := .ai, content := "acc".data }] :=
  ⟨Or.inl rfl,
   message_other_roles_frame 0 _ _ (Or.inl rfl),
   message_other_roles_frame 0 _ _ (Or.inr ⟨rfl, rfl⟩)⟩

/-! ## C5 -/

/-- C5: a streamed `Message` event with role `ai` updates the in-flight
entry as follows: a non-empty string content replaces the accumulated
content, an empty content keeps it, and in either case the event's
`run_id` and `tool_calls` replace the entry's previous values. -/
theorem message_ai_replacement (idx : Nat) (msgs : List UiMessage) (m : ChatMsg)
    (u : UiMessage) (s : List Char)
    (hget : msgs[idx]? = some u) (hai : m.type = .ai)
    (hcases : (m.content = .cstr s ∧ s ≠ []) ∨
      ((m.content = .cstr [] ∨ m.content = .cnull) ∧ s = u.content)) :
    (applyEvent idx msgs (.message m))[idx]? =
      some { u with
        content := s
        runId := m.run_id
        toolCalls := some (m.tool_calls.getD [])
        toolResults := some (u.toolResults.getD []) } := by
  simp only [applyEvent, hai]
  rw [modifyAt_get_self, hget]
  simp only [Option.map_some']
  have hc : aiNewContent u.content m.content = s := by
    rcases hcases with ⟨hc, hs⟩ | ⟨hc, hs⟩
    · rw [hc]; simp [aiNewContent, hs]
    · rcases hc with hc | hc <;> rw [hc] <;> simp [aiNewContent, hs]
  rw [hc]

/-- Witness for C5: a concrete final `ai` message with non-empty content
replacing accumulated deltas. -/
theorem message_ai_replacement_witness :
    ([{ role := .ai, content := "He".data, toolCalls := some [], toolResults := some [] }]
        : List UiMessage)[0]? =
      some { role := .ai, content := "He".data, toolCalls := some [], toolResults := some [] } ∧
    ({ type := .ai, content := .cstr "Hello".data, run_id := some "r1".data } : ChatMsg).type
      = .ai ∧
    (applyEvent 0
        [{ role := .ai, content := "He".data, toolCalls := some [], toolResults := some [] }]
        (.message { type := .ai, content := .cstr "Hello".data, run_id := some "r1".data }))[0]? =
      some { role := .ai, content := "Hello".data, runId := some "r1".data,
             toolCalls := some [], toolResults := some [] } :=
  ⟨rfl, rfl,
   message_ai_replacement 0 _ _ _ ("Hello".data) rfl rfl (Or.inl ⟨rfl, by decide⟩)⟩

/-! ## C7 -/

theorem token_fold (idx : Nat) :
    ∀ (cs : List (List Char)) (msgs : List UiMessage) (u : UiMessage),
      msgs[idx]? = some u →
      ((cs.map StreamEvent.token).foldl (applyEvent idx) msgs)[idx]? =
        some { u with content := u.content ++ cs.flatten } := by
  intro cs
  induction cs with
  | nil => intro msgs u h; simpa using h
  | cons c cs ih =>
    intro msgs u h
    simp only [List.map_cons, List.foldl_cons]
    have h1 : (applyEvent idx msgs (.token c))[idx]? =
        some { u with content := u.content ++ c } := by
      simp [applyEvent, modifyAt_get_self, h]
    have h2 := ih (applyEvent idx msgs (.token c)) _ h1
    rw [h2]
    simp

/-- C7: folding `Token` events with contents `c1..cN` over the transcript
appends exactly their in-order concatenation to the in-flight entry;
starting from the empty placeholder content the entry ends with content
`c1 ++ ... ++ cN` and all its other fields unchanged. -/
theorem token_accumulation (idx : Nat) (msgs : List UiMessage) (u : UiMessage)
    (cs : List (List Char)) (hget : msgs[idx]? = some u) (hempty : u.content = []) :
    ((cs.map StreamEvent.token).foldl (applyEvent idx) msgs)[idx]? =
      some { u with content := cs.flatten } := by
  have h := token_fold idx cs msgs u hget
  rw [hempty] at h
  simpa using h

/-- Witness for C7 at three concrete token deltas. -/
theorem token_accumulation_witness :
    ([{ role := .ai, content := [], toolCalls := some [], toolResults := some [] }]
        : List UiMessage)[0]? =
      some { role := .ai, content := [], toolCalls := some [], toolResults := some [] } ∧
    (([("He".data), ("ll".data), ("o".data)].map StreamEvent.token).foldl (applyEvent 0)
        [{ role := .ai, content := [], toolCalls := some [], toolResults := some [] }])[0]? =
      some { role := .ai, content := "Hello".data, toolCalls := some [],
             toolResults := some [] } :=
  ⟨rfl,
   token_accumulation 0 _ _ [("He".data), ("ll".data), ("o".data)] rfl rfl⟩

/-! ## C6 -/

theorem attachGo_none (id : List Char) (r : Content) :
    ∀ l : List UiMessage, (∀ u ∈ l, tcMatch id u = false) → attachGo id r l = none := by
  intro l
  induction l with
  | nil => intro _; rfl
  | cons u rest ih =>
    intro h
    have hr := ih (fun v hv => h v (List.mem_cons.mpr (Or.inr hv)))
    have hu := h u (List.mem_cons_self u rest)
    simp [attachGo, hr, hu]

theorem attachGo_found (id : List Char) (r : Content) (m : UiMessage) (l2 : List UiMessage)
    (hm : tcMatch id m = true) (h2 : ∀ u ∈ l2, tcMatch id u = false) :
    ∀ l1 : List UiMessage,
      attachGo id r (l1 ++ m :: l2) = some (l1 ++ storeResult id r m :: l2) := by
  intro l1
  induction l1 with
  | nil =>
    simp only [List.nil_append]
    simp [attachGo, attachGo_none id r l2 h2, hm]
  | cons a l1 ih =>
    simp only [List.cons_append]
    simp [attachGo, ih]

/-- C6: a tool result carrying a `tool_call_id` is attached to the most
recently appended `ai` entry whose `toolCalls` contains a matching id —
the entries after that match are untouched — and when no entry matches,
a new standalone `tool`-role entry holding the result is appended, so the
result is never dropped. -/
theorem tool_result_attachment (id : List Char) (r : Content) :
    (∀ msgs : List UiMessage, (∀ u ∈ msgs, tcMatch id u = false) →
      attachToolResult id r msgs =
        msgs ++ [{ role := .tool, content := displayRender r }]) ∧
    (∀ (msgs1 msgs2 : List UiMessage) (m : UiMessage),
      tcMatch id m = true → (∀ u ∈ msgs2, tcMatch id u = false) →
      attachToolResult id r (msgs1 ++ m :: msgs2) =
        msgs1 ++ storeResult id r m :: msgs2) := by
  constructor
  · intro msgs h
    simp [attachToolResult, attachGo_none id r msgs h]
  · intro msgs1 msgs2 m hm h2
    simp [attachToolResult, attachGo_found id r m msgs2 hm h2 msgs1]

/-- Witness for C6: the result for call `b` lands in the matching `ai`
entry's `toolResults`; an unknown id produces a standalone entry. -/
theorem tool_result_attachment_witness :
    tcMatch ("b".data) aiW = true ∧
    attachToolResult ("b".data) (.cstr "out".data) [humanW, aiW] =
      [humanW, storeResult ("b".data) (.cstr "out".data) aiW] ∧
    attachToolResult ("zz".data) (.cstr "out".data) [humanW, aiW] =
      [humanW, aiW] ++ [{ role := .tool, content := "out".data }] :=
  ⟨by decide,
   (tool_result_attachment ("b".data) (.cstr "out".data)).2 [humanW] [] aiW
     (by decide) (by simp),
   (tool_result_attachment ("zz".data) (.cstr "out".data)).1 [humanW, aiW] (by decide)⟩

/-! ## C1 -/

theorem loadHistory_fold_fst :
    ∀ (hist : List ChatMsg) (a b : List UiMessage),
      (hist.foldl loadHistoryStep (a, b)).1 = a ++ hist.map toUiMessage := by
  intro hist
  induction hist with
  | nil => intro a b; simp
  | cons m hist ih =>
    intro a b
    simp only [List.foldl_cons]
    have hstep : loadHistoryStep (a, b) m =
        (a ++ [toUiMessage m], (loadHistoryStep (a, b) m).2) := rfl
    rw [hstep, ih]
    simp

/-- C1 (code bug): `loadHistory` builds the new transcript as the bare
per-message projection of the history — the tool-result attachment pass
runs against the component state that is then wholesale overwritten, so
its effect is always discarded.  On the concrete history `histC1` (an
`ai` message with tool call `t1` followed by a `tool` message answering
`t1`) both resulting entries have empty `toolResults`, contradicting the
claim that the result lands in the preceding `ai` entry's `toolResults`. -/
theorem loadHistory_attachment_dead :
    (∀ (old : List UiMessage) (hist : List ChatMsg),
      loadHistory old hist = hist.map toUiMessage) ∧
    (loadHistory [] histC1).map (fun u => u.toolResults) = [some [], some []] ∧
    ((loadHistory [] histC1)[0]?).map (fun u => u.toolResults) ≠
      some (some [("t1".data, Content.cstr "r".data)]) := by
  refine ⟨?_, by decide, by decide⟩
  intro old hist
  unfold loadHistory
  rw [loadHistory_fold_fst hist [] old]
  simp

/-! ## C9 -/

theorem isPrefixL_self_append : ∀ a b : List Char, isPrefixL a (a ++ b) = true := by
  intro a
  induction a with
  | nil => intro b; rfl
  | cons c a ih => intro b; simp [isPrefixL, ih]

theorem endsWithL_append (s x : List Char) : endsWithL s (x ++ s) = true := by
  unfold endsWithL
  rw [List.reverse_append]
  exact isPrefixL_self_append s.reverse x.reverse

theorem tcMatch_ne_ai (id : List Char) (u : UiMessage) (h : u.role ≠ .ai) :
    tcMatch id u = false := by
  cases hr : u.role with
  | ai => exact absurd hr h
  | human => simp [tcMatch, hr]
  | tool => simp [tcMatch, hr]
  | custom => simp [tcMatch, hr]

theorem attachGo_some_roles (id : List Char) (r : Content) :
    ∀ l l' : List UiMessage, attachGo id r l = some l' →
      l'.map (fun u => u.role) = l.map (fun u => u.role) := by
  intro l
  induction l with
  | nil => intro l' h; simp [attachGo] at h
  | cons u rest ih =>
    intro l' h
    rw [attachGo] at h
    cases hA : attachGo id r rest with
    | some rest' =>
      rw [hA] at h
      simp only [Option.some.injEq] at h
      subst h
      simp [ih rest' hA]
    | none =>
      rw [hA] at h
      by_cases hm : tcMatch id u
      · simp only [hm, if_true, Option.some.injEq] at h
        subst h
        simp [storeResult]
      · simp [hm] at h

theorem attachGo_some_get_preserve (id : List Char) (r : Content) :
    ∀ (l l' : List UiMessage) (k : Nat) (v : UiMessage),
      attachGo id r l = some l' → l[k]? = some v → tcMatch id v = false →
      l'[k]? = some v := by
  intro l
  induction l with
  | nil => intro l' k v h; simp [attachGo] at h
  | cons u rest ih =>
    intro l' k v h hk hv
    rw [attachGo] at h
    cases hA : attachGo id r rest with
    | some rest' =>
      rw [hA] at h
      simp only [Option.some.injEq] at h
      subst h
      cases k with
      | zero => simpa using hk
      | succ n =>
        simp only [List.getElem?_cons_succ] at hk ⊢
        exact ih rest' n v hA hk hv
    | none =>
      rw [hA] at h
      by_cases hm : tcMatch id u
      · simp only [hm, if_true, Option.some.injEq] at h
        subst h
        cases k with
        | zero =>
          simp only [List.getElem?_cons_zero, Option.some.injEq] at hk
          subst hk
          rw [hm] at hv
          cases hv
        | succ n => simpa using hk
      · simp [hm] at h

theorem attach_map_role (id : List Char) (r : Content) (msgs : List UiMessage) :
    (attachToolResult id r msgs).map (fun u => u.role) = msgs.map (fun u => u.role) ∨
    (attachToolResult id r msgs).map (fun u => u.role) =
      msgs.map (fun u => u.role) ++ [Role.tool] := by
  unfold attachToolResult
  cases hA : attachGo id r msgs with
  | some l' => exact Or.inl (attachGo_some_roles id r msgs l' hA)
  | none => right; simp

theorem attach_get_preserve (id : List Char) (r : Content) (msgs : List UiMessage)
    (k : Nat) (v : UiMessage) (hk : msgs[k]? = some v) (hv : tcMatch id v = false) :
    (attachToolResult id r msgs)[k]? = some v := by
  unfold attachToolResult
  cases hA : attachGo id r msgs with
  | some l' => exact attachGo_some_get_preserve id r msgs l' k v hA hk hv
  | none =>
    have hlt : k < msgs.length := (List.getElem?_eq_some.mp hk).1
    rw [List.getElem?_append]
    simp [hlt, hk]

theorem modifyAt_inv (stLen : Nat) (hm : UiMessage) (f : UiMessage → UiMessage)
    (hf : ∀ u, (f u).role = u.role) (msgs : List UiMessage)
    (h : sendInv stLen hm msgs) : sendInv stLen hm (modifyAt f (stLen + 1) msgs) := by
  obtain ⟨h1, h2, h3⟩ := h
  refine ⟨?_, ?_, ?_⟩
  · rw [modifyAt_get_ne f (stLen + 1) stLen msgs (by omega)]
    exact h1
  · rw [modifyAt_get_self]
    cases hE : msgs[stLen + 1]? with
    | none => rw [hE] at h2; simp at h2
    | some u =>
      rw [hE] at h2
      simp only [Option.map_some'] at h2 ⊢
      rw [hf u]
      exact h2
  · rw [modifyAt_map_role f hf]
    exact h3

theorem append_inv (stLen : Nat) (hm : UiMessage) (e : UiMessage) (he : e.role ≠ .ai)
    (msgs : List UiMessage) (h : sendInv stLen hm msgs) :
    sendInv stLen hm (msgs ++ [e]) := by
  obtain ⟨h1, h2, h3⟩ := h
  have hl1 : stLen < msgs.length := (List.getElem?_eq_some.mp h1).1
  have hl2 : stLen + 1 < msgs.length := by
    cases hE : msgs[stLen + 1]? with
    | none => rw [hE] at h2; simp at h2
    | some u => exact (List.getElem?_eq_some.mp hE).1
  refine ⟨?_, ?_, ?_⟩
  · rw [List.getElem?_append]
    simp [hl1, h1]
  · rw [List.getElem?_append]
    simp only [hl2, if_true]
    exact h2
  · rw [List.map_append]
    rw [List.drop_append_of_le_length (by simpa using hl1.le)]
    rw [List.count_append]
    have : ([e.role] : List Role).count .ai = 0 := by
      simp [List.count_cons, he]
    simp [this, h3]

theorem attach_inv (stLen : Nat) (hm : UiMessage) (id : List Char) (r : Content)
    (hR : hm.role ≠ .ai) (msgs : List UiMessage) (h : sendInv stLen hm msgs) :
    sendInv stLen hm (attachToolResult id r msgs) := by
  obtain ⟨h1, h2, h3⟩ := h
  have hl2 : stLen + 1 < msgs.length := by
    cases hE : msgs[stLen + 1]? with
    | none => rw [hE] at h2; simp at h2
    | some u => exact (List.getElem?_eq_some.mp hE).1
  have hl1 : stLen < msgs.length := by omega
  refine ⟨?_, ?_, ?_⟩
  · exact attach_get_preserve id r msgs stLen hm h1 (tcMatch_ne_ai id hm hR)
  · rw [← List.getElem?_map]
    rcases attach_map_role id r msgs with hA | hA
    · rw [hA, List.getElem?_map]
      exact h2
    · rw [hA, List.getElem?_append]
      simp only [List.length_map, hl2, if_true]
      rw [List.getElem?_map]
      exact h2
  · rcases attach_map_role id r msgs with hA | hA
    · rw [hA]
      exact h3
    · rw [hA]
      rw [List.drop_append_of_le_length (by simpa using hl1.le)]
      rw [List.count_append]
      simp [List.count_cons, h3]

theorem applyEvent_inv (stLen : Nat) (hm : UiMessage) (hR : hm.role ≠ .ai)
    (msgs : List UiMessage) (ev : StreamEvent) (h : sendInv stLen hm msgs) :
    sendInv stLen hm (applyEvent (stLen + 1) msgs ev) := by
  cases ev with
  | token c =>
    exact modifyAt_inv stLen hm (fun u => { u with content := u.content ++ c })
      (fun u => rfl) msgs h
  | error c =>
    exact modifyAt_inv stLen hm (fun u => { u with content := u.content ++ errNotice c })
      (fun u => rfl) msgs h
  | message m =>
    cases hT : m.type with
    | ai =>
      simp only [applyEvent, hT]
      exact modifyAt_inv stLen hm
        (fun u =>
          { u with
            content := aiNewContent u.content m.content
            runId := m.run_id
            toolCalls := some (m.tool_calls.getD [])
            toolResults := some (u.toolResults.getD []) })
        (fun u => rfl) msgs h
    | tool =>
      simp only [applyEvent, hT]
      cases m.tool_call_id with
      | some id => exact attach_inv stLen hm id m.content hR msgs h
      | none => exact h
    | custom =>
      simp only [applyEvent, hT]
      exact append_inv stLen hm _ (by intro hc; cases hc) msgs h
    | human =>
      simp only [applyEvent, hT]
      exact h

theorem foldl_inv (stLen : Nat) (hm : UiMessage) (hR : hm.role ≠ .ai) :
    ∀ (evs : List StreamEvent) (msgs : List UiMessage), sendInv stLen hm msgs →
      sendInv stLen hm (evs.foldl (applyEvent (stLen + 1)) msgs) := by
  intro evs
  induction evs with
  | nil => intro msgs h; exact h
  | cons ev evs ih =>
    intro msgs h
    simp only [List.foldl_cons]
    exact ih _ (applyEvent_inv stLen hm hR msgs ev h)


/-- C9: an accepted `send` (non-blank trimmed input, not busy) ends with
the busy flag false for **every** stream outcome — normal completion,
decode errors mid-stream, or a stream-init/transport failure raised while
opening or reading the stream (handled locally, never re-raised); the
`human` entry with the trimmed text sits at the old transcript length,
the entry after it is the single `ai`-role in-flight placeholder created
by this send (no other appended entry has role `ai`), and on a failure
outcome the visible failure notice is appended to that entry's content. -/
theorem busy_flag_symmetry (st : PageState) (o : Outcome)
    (ht : jsTrim st.input ≠ []) (hb : st.loading = false) :
    (send st o).loading = false ∧
    (send st o).messages[st.messages.length]? =
      some { role := .human, content := jsTrim st.input } ∧
    ((send st o).messages[st.messages.length + 1]?).map (fun u => u.role) = some Role.ai ∧
    (((send st o).messages.map (fun u => u.role)).drop st.messages.length).count Role.ai = 1 ∧
    ((send st o).messages[st.messages.length + 1]?).map (noticeOk o) = some true := by
  have hcond : ¬((jsTrim st.input).isEmpty = true ∨ st.loading = true) := by
    intro hc
    rcases hc with hc | hc
    · exact ht (List.isEmpty_iff.mp hc)
    · rw [hb] at hc; cases hc
  have hload : (send st o).loading = false := by
    unfold send
    rw [if_neg hcond]
  have hInv1 : sendInv st.messages.length { role := .human, content := jsTrim st.input }
      (st.messages ++
        [{ role := .human, content := jsTrim st.input },
         { role := .ai, content := [], toolCalls := some [], toolResults := some [] }]) := by
    refine ⟨?_, ?_, ?_⟩
    · rw [List.getElem?_append_right (le_refl st.messages.length)]
      simp
    · rw [List.getElem?_append_right (Nat.le_succ _)]
      simp [show st.messages.length + 1 - st.messages.length = 1 from by omega]
    · rw [List.map_append]
      have hlen : st.messages.length = (st.messages.map (fun u => u.role)).length := by simp
      rw [hlen, List.drop_left]
      rfl
  have hR : ({ role := .human, content := jsTrim st.input } : UiMessage).role ≠ .ai := by
    intro hc; cases hc
  cases o with
  | success evs =>
    have hmsg : (send st (.success evs)).messages =
        evs.foldl (applyEvent (st.messages.length + 1))
          (st.messages ++
            [{ role := .human, content := jsTrim st.input },
             { role := .ai, content := [], toolCalls := some [], toolResults := some [] }]) := by
      unfold send
      rw [if_neg hcond]
      rfl
    have hInv2 := foldl_inv st.messages.length _ hR evs _ hInv1
    obtain ⟨f1, f2, f3⟩ := hInv2
    refine ⟨hload, ?_, ?_, ?_, ?_⟩ <;> rw [hmsg]
    · exact f1
    · exact f2
    · exact f3
    · cases hE : (evs.foldl (applyEvent (st.messages.length + 1))
          (st.messages ++
            [{ role := .human, content := jsTrim st.input },
             { role := .ai, content := [], toolCalls := some [],
               toolResults := some [] }]))[st.messages.length + 1]? with
      | none => rw [hE] at f2; simp at f2
      | some u => rfl
  | failure evs m =>
    have hmsg : (send st (.failure evs m)).messages =
        modifyAt (fun u => { u with content := u.content ++ failNotice m })
          (st.messages.length + 1)
          (evs.foldl (applyEvent (st.messages.length + 1))
            (st.messages ++
              [{ role := .human, content := jsTrim st.input },
               { role := .ai, content := [], toolCalls := some [],
                 toolResults := some [] }])) := by
      unfold send
      rw [if_neg hcond]
      rfl
    have hInv2 := foldl_inv st.messages.length _ hR evs _ hInv1
    have hInv3 := modifyAt_inv st.messages.length _
      (fun u => { u with content := u.content ++ failNotice m }) (fun u => rfl) _ hInv2
    obtain ⟨f1, f2, f3⟩ := hInv3
    refine ⟨hload, ?_, ?_, ?_, ?_⟩ <;> rw [hmsg]
    · exact f1
    · exact f2
    · exact f3
    · cases hE : (evs.foldl (applyEvent (st.messages.length + 1))
          (st.messages ++
            [{ role := .human, content := jsTrim st.input },
             { role := .ai, content := [], toolCalls := some [],
               toolResults := some [] }]))[st.messages.length + 1]? with
      | none =>
        obtain ⟨g1, g2, g3⟩ := hInv2
        rw [hE] at g2
        simp at g2
      | some u =>
        rw [modifyAt_get_self, hE]
        simp only [Option.map_some']
        show some (noticeOk (Outcome.failure evs m)
          { u with content := u.content ++ failNotice m }) = some true
        simp only [noticeOk]
        rw [endsWithL_append]


/-- Witness for C9 at a concrete page state and a failing outcome. -/
theorem busy_flag_symmetry_witness :
    jsTrim pgW.input ≠ [] ∧ pgW.loading = false ∧
    ((send pgW outW).loading = false ∧
     (send pgW outW).messages[pgW.messages.length]? =
       some { role := .human, content := jsTrim pgW.input } ∧
     ((send pgW outW).messages[pgW.messages.length + 1]?).map (fun u => u.role) =
       some Role.ai ∧
     (((send pgW outW).messages.map (fun u => u.role)).drop pgW.messages.length).count
       Role.ai = 1 ∧
     ((send pgW outW).messages[pgW.messages.length + 1]?).map (noticeOk outW) =
       some true) :=
  ⟨by decide, rfl, busy_flag_symmetry pgW outW (by decide) rfl⟩

end KnowLedgeLib
